import Mathlib

/-!
Verification of the `better-lover` Discord relay bot (`app/bot.py`).

The development shallowly embeds the pure content of the bot:

* `split_message` — the message-chunking algorithm (bot.py lines 20-38),
  modelled character-for-character over `List Char`;
* the dispatcher's classification of a relevant message into
  image-attachment / image-URL / text (bot.py lines 82-90);
* the relay pipeline's response handling (`process_text`,
  `process_image`, `process_image_url`) as a pure function from a
  modelled HTTP response to the list of Discord-visible side effects
  (reactions, replies, outbound HTTP calls).

Python-specific primitives (`str.split('\n')`, `str.strip()`,
`str.replace`, `str.lower`, substring membership, `dict.get`) are
modelled explicitly below so that every theorem is about the code the
bot actually runs.
-/

/-- The whitespace set stripped by CPython's `str.strip()` on ASCII text:
space, tab, newline, vertical tab, form feed, carriage return.
(Non-ASCII Unicode whitespace is not modelled; all inputs considered
here are ASCII.) -/
def isPySpace (c : Char) : Bool :=
  c = ' ' || c = '\t' || c = '\n' || c = '\x0b' || c = '\x0c' || c = '\r'

/-- Python `str.strip()` on the character list of a string: drop leading
and trailing whitespace. -/
def pyStripChars (l : List Char) : List Char :=
  ((l.dropWhile isPySpace).reverse.dropWhile isPySpace).reverse

/-- Python `str.strip()`. -/
def pyStrip (s : String) : String :=
  ⟨pyStripChars s.data⟩

/-- Python `str.split('\n')`: split on every newline character; the empty
string yields the one-element list `[""]`, and `n` newlines yield `n+1`
parts. -/
def splitNL : List Char → List (List Char)
  | [] => [[]]
  | c :: cs =>
    match splitNL cs with
    | [] => if c = '\n' then [[], []] else [[c]]
    | r :: rs => if c = '\n' then [] :: r :: rs else (c :: r) :: rs

/-- `MAX_DISCORD_LENGTH = 1990` (bot.py line 17): the chunk limit, a few
characters below Discord's 2000 limit to leave room for code-block
markers. -/
def MAX_DISCORD_LENGTH : Nat := 1990

/-- One iteration of the loop body of `split_message` (bot.py lines
25-32).  State is `(chunks, current_chunk)`.  If adding the line would
exceed the limit, flush the (stripped) current chunk when it is
non-empty and restart from the line; otherwise append the line to the
current chunk with a newline (or start the chunk with it). -/
def splitStep (st : List (List Char) × List Char) (line : List Char) :
    List (List Char) × List Char :=
  let (chunks, current) := st
  if MAX_DISCORD_LENGTH < current.length + line.length + 1 then
    (if current = [] then chunks else chunks ++ [pyStripChars current], line)
  else
    (chunks, if current = [] then line else current ++ '\n' :: line)

/-- The whole loop of `split_message` plus the final flush (bot.py lines
22-38), over an explicit list of lines. -/
def splitLinesFrom (st : List (List Char) × List Char)
    (lines : List (List Char)) : List (List Char) :=
  let (chunks, current) := lines.foldl splitStep st
  if current = [] then chunks else chunks ++ [pyStripChars current]

/-- `split_message` (bot.py lines 20-38): split a message into chunks
that fit within Discord's character limit.  Lines are accumulated into
chunks joined by newlines; each flushed chunk is stripped. -/
def split_message (message : String) : List String :=
  (splitLinesFrom ([], []) (splitNL message.data)).map fun l => ⟨l⟩

/-- Join a list of strings with newlines (Python `'\n'.join`), used to
state the round-trip property of the chunking. -/
def joinNL (chunks : List String) : String :=
  ⟨List.intercalate ['\n'] (chunks.map String.data)⟩

/-- One iteration of the chunking loop, recorded at the level of line
groups: the same limit and emptiness tests as `splitStep` (taken on the
newline-join of the recorded lines, which is exactly the loop's
`current_chunk`), but remembering which whole input lines the current
buffer is built from instead of only their joined text. -/
def groupStep (st : List (List (List Char)) × List (List Char))
    (line : List Char) : List (List (List Char)) × List (List Char) :=
  let (gs, cur) := st
  if MAX_DISCORD_LENGTH < (List.intercalate ['\n'] cur).length + line.length + 1 then
    (if List.intercalate ['\n'] cur = [] then gs else gs ++ [cur], [line])
  else
    (gs, if List.intercalate ['\n'] cur = [] then [line] else cur ++ [line])

/-- The grouping performed by the whole chunking loop plus the final
flush: which consecutive whole lines each produced chunk is built
from. -/
def groupsFrom (st : List (List (List Char)) × List (List Char))
    (lines : List (List Char)) : List (List (List Char)) :=
  let (gs, cur) := lines.foldl groupStep st
  if List.intercalate ['\n'] cur = [] then gs else gs ++ [cur]

/-- The line groups underlying the chunks of `split_message`. -/
def chunkGroups (s : String) : List (List (List Char)) :=
  groupsFrom ([], []) (splitNL s.data)

/-! ## Dispatcher: message classification (bot.py lines 55-94) -/

/-- Python `str.lower()` (ASCII). -/
def pyLower (s : String) : String :=
  ⟨s.data.map Char.toLower⟩

/-- Python `a.startswith(b)` as a Bool over the underlying characters. -/
def strStartsWith (p s : String) : Bool :=
  p.data.isPrefixOf s.data

/-- Python `a.endswith(b)` as a Bool over the underlying characters
(needed only to state the spec's claimed URL test). -/
def strEndsWith (p s : String) : Bool :=
  p.data.isSuffixOf s.data

/-- Python substring membership `needle in hay` over character lists. -/
def containsSub (needle : List Char) : List Char → Bool
  | [] => needle = []
  | c :: t => needle.isPrefixOf (c :: t) || containsSub needle t

/-- Python `needle in hay` on strings. -/
def strContains (needle s : String) : Bool :=
  containsSub needle.data s.data

/-- The known image extensions checked by the dispatcher (bot.py line 86). -/
def IMAGE_EXTS : List String := [".jpg", ".jpeg", ".png", ".gif", ".webp"]

/-- The part of a Discord attachment the dispatcher inspects: its
declared content type. -/
structure Attachment where
  contentType : String
deriving DecidableEq

/-- The classification-relevant part of a message: its attachments and
its text content after mention stripping. -/
structure MsgInfo where
  attachments : List Attachment
  content : String
deriving DecidableEq

/-- The three request kinds the dispatcher can select. -/
inductive Dispatch where
  | imageAttachment
  | imageUrl
  | text
deriving DecidableEq

/-- `message.attachments and message.attachments[0].content_type.startswith('image/')`
(bot.py line 83): a non-empty attachment list whose first element
declares an `image/` content type. -/
def firstIsImage : List Attachment → Bool
  | [] => false
  | a :: _ => strStartsWith "image/" a.contentType

/-- The URL test of bot.py line 86:
`content.startswith(('http://', 'https://')) and any(ext in content.lower() for ext in [...])`.
Note the extension test is substring membership in the lowercased text,
not a suffix test. -/
def isImageUrlText (content : String) : Bool :=
  (strStartsWith "http://" content || strStartsWith "https://" content)
    && IMAGE_EXTS.any fun ext => strContains ext (pyLower content)

/-- The dispatcher's classification (bot.py lines 82-90): image
attachment first, then image URL, otherwise text. -/
def classify (m : MsgInfo) : Dispatch :=
  if firstIsImage m.attachments then .imageAttachment
  else if isImageUrlText m.content then .imageUrl
  else .text

/-- The classification exactly as the spec sentence words it, with the
URL branch requiring the lowercased text to END in a known image
extension.  Defined only to be compared with `classify`. -/
def classifySpecClaimed (m : MsgInfo) : Dispatch :=
  if firstIsImage m.attachments then .imageAttachment
  else if (strStartsWith "http://" m.content || strStartsWith "https://" m.content)
      && IMAGE_EXTS.any (fun ext => strEndsWith ext (pyLower m.content)) then .imageUrl
  else .text

/-- The amended classification claim: as `classifySpecClaimed`, but the
URL branch requires the lowercased text to CONTAIN a known image
extension as a substring.  Written from the amended spec words, with the
attachment test spelled as a pattern match, to be compared with the
source-derived `classify`. -/
def classifySpecAmended (m : MsgInfo) : Dispatch :=
  match m.attachments with
  | a :: _ =>
    if strStartsWith "image/" a.contentType then .imageAttachment
    else classifyNoAttachment m.content
  | [] => classifyNoAttachment m.content
where
  /-- Classification of a message with no (image) attachment, from the
  amended spec words. -/
  classifyNoAttachment (content : String) : Dispatch :=
    if (strStartsWith "http://" content || strStartsWith "https://" content)
        && IMAGE_EXTS.any (fun ext => strContains ext (pyLower content)) then .imageUrl
    else .text

/-! ## Relay pipeline: response handling as a list of visible effects
(bot.py lines 96-328) -/

/-- A Discord- or HTTP-visible side effect performed during one
dispatch. -/
inductive Effect where
  /-- `message.add_reaction e` -/
  | addReaction (e : String)
  /-- `message.clear_reactions()` -/
  | clearReactions
  /-- `message.reply t` -/
  | reply (t : String)
  /-- `session.post(API_URL ++ path, ...)` -/
  | httpPost (path : String)
  /-- `session.get(url, ...)` -/
  | httpGet (url : String)
deriving DecidableEq

/-- The formatting API's response as the pipeline observes it:
HTTP status, raw body text, and the JSON body as a string-to-string
object when the body parses as a JSON object (`none` when
`response.json()` fails or the result is not an object). -/
structure ApiResponse where
  status : Nat
  text : String
  json : Option (List (String × String))
deriving DecidableEq

/-- Python `dict.get(key, default)` on the modelled JSON object. -/
def jsonGet (obj : List (String × String)) (key default : String) : String :=
  match obj.find? (fun p => p.1 = key) with
  | some p => p.2
  | none => default

/-- The error detail extracted from a non-200 response (bot.py lines
114-119): `detail` from the JSON body with default `'Unknown error'`,
falling back to the raw body text when JSON parsing fails. -/
def errorDetailOf (resp : ApiResponse) : String :=
  match resp.json with
  | some obj => jsonGet obj "detail" "Unknown error"
  | none => resp.text

/-- Exception text raised by `response.json()` on a 200 response whose
body is not a JSON object; the exact wording comes from the HTTP client
library, which is outside this repository, so it is fixed here as an
uninterpreted constant string.  No claim depends on it. -/
def JSON_DECODE_ERROR : String := "Response payload is not valid JSON"

/-- `str(IndexError)` raised by `chunks[0]` on an empty chunk list
(bot.py line 136), per Python semantics. -/
def INDEX_ERROR : String := "list index out of range"

/-- The response handling shared verbatim by `process_text` (lines
113-148), `process_image` (lines 191-226) and `process_image_url`
(lines 276-311): on non-200, clear reactions, add the failure marker and
reply with the error detail; on 200, parse `formatted_dates` (defaulting
to `"Error: No dates found"`), chunk it, reply the first chunk wrapped
in a code block with the disclaimer, and each later chunk as a
`(continued...)` code block.  An unparseable 200 body or an empty chunk
list raises, which the enclosing `except Exception` turns into the
failure marker plus an `Error:` reply. -/
def responseEffects (resp : ApiResponse) : List Effect :=
  if resp.status ≠ 200 then
    [.clearReactions, .addReaction "❌", .reply ("Error: " ++ errorDetailOf resp)]
  else
    match resp.json with
    | none => [.clearReactions, .addReaction "❌", .reply ("Error: " ++ JSON_DECODE_ERROR)]
    | some obj =>
      match split_message (jsonGet obj "formatted_dates" "Error: No dates found") with
      | [] => [.clearReactions, .addReaction "❌", .reply ("Error: " ++ INDEX_ERROR)]
      | c :: rest =>
        .reply ("```\n" ++ c ++ "\n```\n\nPlease double-check all info as Better Lover can make mistakes.")
          :: rest.map fun ch => .reply ("```\n(continued...)\n" ++ ch ++ "\n```")

/-- `process_text` (bot.py lines 96-165) as its visible effects, given
the formatting API's response: working marker, one POST to
`/format/text`, then the shared response handling. -/
def process_text_effects (resp : ApiResponse) : List Effect :=
  .addReaction "⏳" :: .httpPost "/format/text" :: responseEffects resp

/-- `process_image` (bot.py lines 167-243) as its visible effects, given
the formatting API's response: working marker, one POST to
`/format/image`, then the shared response handling. -/
def process_image_effects (resp : ApiResponse) : List Effect :=
  .addReaction "⏳" :: .httpPost "/format/image" :: responseEffects resp

/-- `process_image_url` (bot.py lines 245-328) as its visible effects:
working marker, one GET of the URL; a non-200 download raises
`Failed to download image: HTTP {status}` which the handler turns into
the failure marker and an `Error:` reply; otherwise one POST to
`/format/image` and the shared response handling. -/
def process_image_url_effects (url : String) (dlStatus : Nat)
    (resp : ApiResponse) : List Effect :=
  .addReaction "⏳" :: .httpGet url ::
    (if dlStatus ≠ 200 then
      [.clearReactions, .addReaction "❌",
        .reply ("Error: Failed to download image: HTTP " ++ toString dlStatus)]
    else .httpPost "/format/image" :: responseEffects resp)

/-! ## Dispatcher: `on_message` (bot.py lines 55-94) -/

/-- Worker for `removeAll`: scan the haystack left to right, skipping
each occurrence of the (non-empty) needle `n :: ns`.  The fuel argument
only bounds the recursion; every step consumes at least one haystack
character, so `hay.length` fuel is always enough. -/
def removeAllAux (n : Char) (ns : List Char) : Nat → List Char → List Char
  | _, [] => []
  | 0, hay => hay
  | fuel + 1, c :: t =>
    if (n :: ns).isPrefixOf (c :: t) then removeAllAux n ns fuel (t.drop ns.length)
    else c :: removeAllAux n ns fuel t

/-- Python `hay.replace(needle, '')`: remove every (left-to-right,
non-overlapping) occurrence of `needle`. -/
def removeAll (needle hay : List Char) : List Char :=
  match needle with
  | [] => hay
  | n :: ns => removeAllAux n ns hay.length hay

/-- Mention stripping (bot.py line 73):
`message.content.replace('<@id>', '').replace('<@!id>', '').strip()`. -/
def strippedContent (botId : Nat) (raw : String) : String :=
  pyStrip ⟨removeAll ("<@!" ++ toString botId ++ ">").data
    (removeAll ("<@" ++ toString botId ++ ">").data raw.data)⟩

/-- The parts of an inbound Discord message `on_message` inspects. -/
structure InMsg where
  /-- `self.user.mentioned_in(message)` -/
  mentionsBot : Bool
  /-- `message.author == self.user` -/
  authorIsBot : Bool
  /-- `message.content`, raw -/
  content : String
  attachments : List Attachment
deriving DecidableEq

/-- The environment one dispatch runs against: the status of the
image-URL download (when taken) and the formatting API's response. -/
structure Env where
  downloadStatus : Nat
  api : ApiResponse
deriving DecidableEq

/-- `on_message` (bot.py lines 55-94) as the list of visible effects of
one dispatch.  Not mentioned, or self-authored: nothing.  Relevant but
empty after mention stripping and without attachments: one
informational reply.  Otherwise: working marker, then the classified
pipeline. -/
def on_message_effects (botId : Nat) (m : InMsg) (env : Env) : List Effect :=
  if !m.mentionsBot then []
  else if m.authorIsBot then []
  else
    let content := strippedContent botId m.content
    if content = "" && m.attachments.isEmpty then
      [.reply "Please provide some tour dates, an image, or an image URL."]
    else
      .addReaction "⏳" ::
        (match classify ⟨m.attachments, content⟩ with
        | .imageAttachment => process_image_effects env.api
        | .imageUrl => process_image_url_effects content env.downloadStatus env.api
        | .text => process_text_effects env.api)

/-! ## Helper lemmas -/

/-- Dropping a while-scan never lengthens a list. -/
theorem length_dropWhile_le (p : Char → Bool) (l : List Char) :
    (l.dropWhile p).length ≤ l.length := by
  induction l with
  | nil => simp
  | cons c t ih =>
    rw [List.dropWhile_cons]
    split
    · exact Nat.le_trans ih (Nat.le_succ _)
    · simp

/-- Stripping never lengthens a list. -/
theorem pyStripChars_length_le (l : List Char) :
    (pyStripChars l).length ≤ l.length := by
  unfold pyStripChars
  calc ((l.dropWhile isPySpace).reverse.dropWhile isPySpace).reverse.length
      = ((l.dropWhile isPySpace).reverse.dropWhile isPySpace).length := by
        rw [List.length_reverse]
    _ ≤ (l.dropWhile isPySpace).reverse.length := length_dropWhile_le _ _
    _ = (l.dropWhile isPySpace).length := by rw [List.length_reverse]
    _ ≤ l.length := length_dropWhile_le _ _

/-- A while-scan that drops nothing is exactly a failing first test. -/
theorem dropWhile_eq_self_of_head (p : Char → Bool) (c : Char) (t : List Char)
    (h : p c = false) : (c :: t).dropWhile p = c :: t := by
  rw [List.dropWhile_cons, h]
  simp

/-- Stripping a list whose first and last characters are not whitespace
changes nothing. -/
theorem pyStripChars_eq_self (c d : Char) (t : List Char)
    (hc : isPySpace c = false)
    (hd : isPySpace d = false)
    (hlast : (c :: t).getLast (by simp) = d) :
    pyStripChars (c :: t) = c :: t := by
  unfold pyStripChars
  rw [dropWhile_eq_self_of_head _ _ _ hc]
  have hrev : (c :: t).reverse = d :: ((c :: t).reverse.tail) := by
    have h1 : (c :: t).reverse ≠ [] := by simp
    have h2 : (c :: t).reverse.head h1 = d := by
      rw [List.head_reverse]; exact hlast
    conv_lhs => rw [← List.head_cons_tail _ h1, h2]
  rw [hrev, dropWhile_eq_self_of_head _ _ _ hd, ← hrev, List.reverse_reverse]

/-- A while-scan that keeps its head must fail the test on it. -/
theorem head_false_of_dropWhile_self (p : Char → Bool) (c : Char) (t : List Char)
    (h : (c :: t).dropWhile p = c :: t) : p c = false := by
  by_contra hc
  simp only [Bool.not_eq_false] at hc
  rw [List.dropWhile_cons, if_pos hc] at h
  have h3 : (List.dropWhile p t).length = t.length + 1 := by rw [h]; simp
  have h4 := length_dropWhile_le p t
  omega

/-- A while-scan that loses no length drops nothing. -/
theorem dropWhile_eq_self_of_length (p : Char → Bool) (l : List Char)
    (h : l.length ≤ (l.dropWhile p).length) : l.dropWhile p = l := by
  cases l with
  | nil => rfl
  | cons c t =>
    rw [List.dropWhile_cons] at h ⊢
    by_cases hc : p c = true
    · rw [if_pos hc] at h ⊢
      exfalso
      have h4 := length_dropWhile_le p t
      simp only [List.length_cons] at h
      omega
    · rw [if_neg hc]

/-- A non-empty list fixed by stripping has a non-whitespace first
character and a non-whitespace last character. -/
theorem strip_self_ends (c : Char) (t : List Char)
    (h : pyStripChars (c :: t) = c :: t) :
    isPySpace c = false ∧ isPySpace ((c :: t).getLast (by simp)) = false := by
  have hlen := congrArg List.length h
  unfold pyStripChars at hlen
  rw [List.length_reverse] at hlen
  have hle1 := length_dropWhile_le isPySpace ((c :: t).dropWhile isPySpace).reverse
  rw [List.length_reverse] at hle1
  have h1 : (c :: t).dropWhile isPySpace = c :: t :=
    dropWhile_eq_self_of_length _ _ (by omega)
  unfold pyStripChars at h
  rw [h1] at h
  have h2 : (c :: t).reverse.dropWhile isPySpace = (c :: t).reverse := by
    have := congrArg List.reverse h
    rwa [List.reverse_reverse] at this
  refine ⟨head_false_of_dropWhile_self _ _ _ h1, ?_⟩
  have hne : (c :: t).reverse ≠ [] := by simp
  have hd : (c :: t).reverse.head hne = (c :: t).getLast (by simp) := by
    rw [List.head_reverse]
  have hrev : (c :: t).reverse
      = (c :: t).getLast (by simp) :: (c :: t).reverse.tail := by
    conv_lhs => rw [← List.head_cons_tail _ hne, hd]
  rw [hrev] at h2
  exact head_false_of_dropWhile_self _ _ _ h2

/-- Joining the empty list of parts gives the empty list. -/
theorem glue_nil : List.intercalate ['\n'] ([] : List (List Char)) = [] := by
  simp [List.intercalate]

/-- Joining a single part gives that part. -/
theorem glue_single (a : List Char) : List.intercalate ['\n'] [a] = a := by
  simp [List.intercalate]

/-- Joining at least two parts starts with the first part and a
newline. -/
theorem glue_cons2 (a b : List Char) (t : List (List Char)) :
    List.intercalate ['\n'] (a :: b :: t) = a ++ '\n' :: List.intercalate ['\n'] (b :: t) := by
  simp [List.intercalate, List.intersperse_cons_cons]

/-- Fusing the first two parts with an explicit newline does not change
the join. -/
theorem glue_append_cons (a b : List Char) (t : List (List Char)) :
    List.intercalate ['\n'] ((a ++ '\n' :: b) :: t)
      = List.intercalate ['\n'] (a :: b :: t) := by
  cases t with
  | nil => rw [glue_single, glue_cons2, glue_single]
  | cons c ts => rw [glue_cons2, glue_cons2, glue_cons2, List.append_assoc, List.cons_append]

/-- Splitting on newlines always yields at least one part. -/
theorem splitNL_ne_nil (l : List Char) : splitNL l ≠ [] := by
  cases l with
  | nil => simp [splitNL]
  | cons c cs =>
    simp only [splitNL]
    split <;> split <;> simp

/-- Joining with newlines is a left inverse of splitting on newlines. -/
theorem glue_splitNL (l : List Char) : List.intercalate ['\n'] (splitNL l) = l := by
  induction l with
  | nil => simp [splitNL, glue_single]
  | cons c cs ih =>
    simp only [splitNL]
    obtain ⟨r, rs, h⟩ := List.exists_cons_of_ne_nil (splitNL_ne_nil cs)
    rw [h] at ih ⊢
    dsimp only
    by_cases hc : c = '\n'
    · rw [if_pos hc, glue_cons2, hc, ih]
      simp
    · rw [if_neg hc]
      cases rs with
      | nil =>
        rw [glue_single] at ih ⊢
        rw [ih]
      | cons r2 rs2 =>
        rw [glue_cons2] at ih ⊢
        rw [List.cons_append, ih]

/-- The first state component of the loop body is pass-through: chunks
already flushed are only appended to. -/
theorem splitStep_fst (chunks : List (List Char)) (cur l : List Char) :
    splitStep (chunks, cur) l
      = (chunks ++ (splitStep ([], cur) l).1, (splitStep ([], cur) l).2) := by
  unfold splitStep
  by_cases h1 : MAX_DISCORD_LENGTH < cur.length + l.length + 1 <;>
    by_cases h2 : cur = [] <;> simp [h1, h2]

/-- The whole loop is pass-through in the already-flushed chunks. -/
theorem foldl_splitStep_append (ls : List (List Char)) :
    ∀ (chunks : List (List Char)) (cur : List Char),
    ls.foldl splitStep (chunks, cur)
      = (chunks ++ (ls.foldl splitStep ([], cur)).1, (ls.foldl splitStep ([], cur)).2) := by
  induction ls with
  | nil => intro chunks cur; simp
  | cons l t ih =>
    intro chunks cur
    rw [List.foldl_cons, List.foldl_cons, splitStep_fst]
    rcases hsplit : splitStep ([], cur) l with ⟨X, cur2⟩
    rw [ih (chunks ++ X) cur2, ih X cur2, List.append_assoc]

/-- `splitLinesFrom` is pass-through in the already-flushed chunks. -/
theorem splitLinesFrom_append (chunks : List (List Char)) (cur : List Char)
    (ls : List (List Char)) :
    splitLinesFrom (chunks, cur) ls = chunks ++ splitLinesFrom ([], cur) ls := by
  unfold splitLinesFrom
  rcases hfold : ls.foldl splitStep ([], cur) with ⟨X, c⟩
  rw [foldl_splitStep_append, hfold]
  by_cases hc : c = [] <;> simp [hc]

/-- Processing one more line first steps the state. -/
theorem splitLinesFrom_cons (st : List (List Char) × List Char) (l : List Char)
    (ls : List (List Char)) :
    splitLinesFrom st (l :: ls) = splitLinesFrom (splitStep st l) ls := by
  unfold splitLinesFrom
  rw [List.foldl_cons]

/-- From the empty state, the first line always becomes the current
chunk with nothing flushed. -/
theorem splitStep_nil_nil (l : List Char) : splitStep ([], []) l = ([], l) := by
  simp [splitStep]

/-- Gluing two non-empty stripped lists with a newline yields a stripped
list: the buffer the loop accumulates stays stripped when every line is
stripped and non-empty. -/
theorem good_append (a b : List Char) (ha : a ≠ []) (hsa : pyStripChars a = a)
    (hb : b ≠ []) (hsb : pyStripChars b = b) :
    pyStripChars (a ++ '\n' :: b) = a ++ '\n' :: b := by
  obtain ⟨c, t, rfl⟩ := List.exists_cons_of_ne_nil ha
  obtain ⟨hca, _⟩ := strip_self_ends c t hsa
  obtain ⟨d, u, rfl⟩ := List.exists_cons_of_ne_nil hb
  obtain ⟨_, hdb⟩ := strip_self_ends d u hsb
  have hlast : ((c :: t) ++ '\n' :: d :: u).getLast (by simp)
      = (d :: u).getLast (by simp) := by
    rw [List.getLast_append]
    simp [List.getLast_cons]
  rw [List.cons_append]
  apply pyStripChars_eq_self c ((d :: u).getLast (by simp)) (t ++ '\n' :: d :: u) hca hdb
  exact hlast

/-- Unfolding of the loop body on an explicit state pair. -/
theorem splitStep_eq (chunks : List (List Char)) (cur l : List Char) :
    splitStep (chunks, cur) l =
      if MAX_DISCORD_LENGTH < cur.length + l.length + 1 then
        (if cur = [] then chunks else chunks ++ [pyStripChars cur], l)
      else (chunks, if cur = [] then l else cur ++ '\n' :: l) := rfl

/-- When every line is non-empty and stripped, running the loop from a
non-empty stripped buffer and no flushed chunks produces a non-empty
chunk list whose newline-join is the newline-join of the buffer followed
by the lines. -/
theorem join_splitLinesFrom (ls : List (List Char)) : ∀ cur : List Char, cur ≠ [] →
    pyStripChars cur = cur → (∀ l ∈ ls, l ≠ [] ∧ pyStripChars l = l) →
    List.intercalate ['\n'] (splitLinesFrom ([], cur) ls)
      = List.intercalate ['\n'] (cur :: ls) ∧ splitLinesFrom ([], cur) ls ≠ [] := by
  induction ls with
  | nil =>
    intro cur hc hsc _
    unfold splitLinesFrom
    refine ⟨?_, ?_⟩ <;> simp [hc, hsc]
  | cons l t ih =>
    intro cur hc hsc hall
    have hl := hall l (List.mem_cons_self l t)
    have hrest : ∀ x ∈ t, x ≠ [] ∧ pyStripChars x = x := fun x hx =>
      hall x (List.mem_cons_of_mem l hx)
    rw [splitLinesFrom_cons]
    by_cases hcond : MAX_DISCORD_LENGTH < cur.length + l.length + 1
    · have hstep : splitStep ([], cur) l = ([cur], l) := by
        rw [splitStep_eq, if_pos hcond, if_neg hc, hsc]
        simp
      rw [hstep, splitLinesFrom_append]
      obtain ⟨hj, hne⟩ := ih l hl.1 hl.2 hrest
      obtain ⟨r, rs, hr⟩ := List.exists_cons_of_ne_nil hne
      rw [hr] at hj ⊢
      refine ⟨?_, by simp⟩
      rw [List.singleton_append, glue_cons2, hj, glue_cons2]
    · have hstep : splitStep ([], cur) l = ([], cur ++ '\n' :: l) := by
        rw [splitStep_eq, if_neg hcond, if_neg hc]
      rw [hstep]
      have hgood := good_append cur l hc hsc hl.1 hl.2
      obtain ⟨hj, hne⟩ := ih (cur ++ '\n' :: l) (by simp [hc]) hgood hrest
      refine ⟨?_, hne⟩
      rw [hj, glue_append_cons]

/-- When every line fits the limit, every chunk the loop emits fits the
limit, whatever bounded state it starts from. -/
theorem chunks_le_aux (ls : List (List Char)) :
    ∀ (chunks : List (List Char)) (cur : List Char),
    (∀ c ∈ chunks, c.length ≤ MAX_DISCORD_LENGTH) →
    cur.length ≤ MAX_DISCORD_LENGTH →
    (∀ l ∈ ls, l.length ≤ MAX_DISCORD_LENGTH) →
    ∀ c ∈ splitLinesFrom (chunks, cur) ls, c.length ≤ MAX_DISCORD_LENGTH := by
  induction ls with
  | nil =>
    intro chunks cur hch hcur _ c hcmem
    unfold splitLinesFrom at hcmem
    by_cases hc : cur = []
    · simp [hc] at hcmem
      exact hch c hcmem
    · simp [hc] at hcmem
      rcases hcmem with hcmem | rfl
      · exact hch c hcmem
      · exact Nat.le_trans (pyStripChars_length_le cur) hcur
  | cons l t ih =>
    intro chunks cur hch hcur hall c hcmem
    have hl := hall l (List.mem_cons_self l t)
    have hrest : ∀ x ∈ t, x.length ≤ MAX_DISCORD_LENGTH := fun x hx =>
      hall x (List.mem_cons_of_mem l hx)
    rw [splitLinesFrom_cons] at hcmem
    by_cases hcond : MAX_DISCORD_LENGTH < cur.length + l.length + 1
    · have hstep : splitStep (chunks, cur) l
          = (if cur = [] then chunks else chunks ++ [pyStripChars cur], l) := by
        rw [splitStep_eq, if_pos hcond]
      rw [hstep] at hcmem
      have hch2 : ∀ x ∈ (if cur = [] then chunks else chunks ++ [pyStripChars cur]),
          x.length ≤ MAX_DISCORD_LENGTH := by
        by_cases hc : cur = []
        · simpa [hc] using hch
        · intro x hx
          simp [hc] at hx
          rcases hx with hx | rfl
          · exact hch x hx
          · exact Nat.le_trans (pyStripChars_length_le cur) hcur
      exact ih _ l hch2 hl hrest c hcmem
    · have hstep : splitStep (chunks, cur) l
          = (chunks, if cur = [] then l else cur ++ '\n' :: l) := by
        rw [splitStep_eq, if_neg hcond]
      rw [hstep] at hcmem
      have hcur2 : (if cur = [] then l else cur ++ '\n' :: l).length
          ≤ MAX_DISCORD_LENGTH := by
        by_cases hc : cur = []
        · simpa [hc] using hl
        · simp [hc]
          omega
      exact ih _ _ hch hcur2 hrest c hcmem

/-- Chunks already flushed stay in the final output. -/
theorem mem_splitLinesFrom_of_mem (chunks : List (List Char)) (cur : List Char)
    (ls : List (List Char)) (c : List Char) (h : c ∈ chunks) :
    c ∈ splitLinesFrom (chunks, cur) ls := by
  rw [splitLinesFrom_append]
  exact List.mem_append_left _ h

/-- An over-limit current buffer can never be extended, so its stripped
form always ends up as a chunk of its own. -/
theorem oversized_cur_mem (ls : List (List Char)) :
    ∀ (chunks : List (List Char)) (cur : List Char),
    MAX_DISCORD_LENGTH < cur.length →
    pyStripChars cur ∈ splitLinesFrom (chunks, cur) ls := by
  induction ls with
  | nil =>
    intro chunks cur hcur
    have hc : cur ≠ [] := by
      intro h
      rw [h] at hcur
      simp [MAX_DISCORD_LENGTH] at hcur
    unfold splitLinesFrom
    simp [hc]
  | cons l t ih =>
    intro chunks cur hcur
    have hc : cur ≠ [] := by
      intro h
      rw [h] at hcur
      simp [MAX_DISCORD_LENGTH] at hcur
    rw [splitLinesFrom_cons]
    have hcond : MAX_DISCORD_LENGTH < cur.length + l.length + 1 := by omega
    have hstep : splitStep (chunks, cur) l = (chunks ++ [pyStripChars cur], l) := by
      rw [splitStep_eq, if_pos hcond, if_neg hc]
    rw [hstep]
    exact mem_splitLinesFrom_of_mem _ _ _ _ (by simp)

/-- Any over-limit line among the input lines ends up, stripped, as a
chunk of its own, from any starting state. -/
theorem oversized_line_mem (ls : List (List Char)) :
    ∀ (chunks : List (List Char)) (cur l : List Char),
    l ∈ ls → MAX_DISCORD_LENGTH < l.length →
    pyStripChars l ∈ splitLinesFrom (chunks, cur) ls := by
  induction ls with
  | nil =>
    intro _ _ _ h
    simp at h
  | cons x t ih =>
    intro chunks cur l hmem hlen
    rw [splitLinesFrom_cons]
    rcases List.mem_cons.1 hmem with rfl | hmem2
    · have hcond : MAX_DISCORD_LENGTH < cur.length + l.length + 1 := by omega
      have hstep : splitStep (chunks, cur) l
          = (if cur = [] then chunks else chunks ++ [pyStripChars cur], l) := by
        rw [splitStep_eq, if_pos hcond]
      rw [hstep]
      exact oversized_cur_mem t _ l hlen
    · rcases hst : splitStep (chunks, cur) x with ⟨ch2, cur2⟩
      exact ih ch2 cur2 l hmem2 hlen

/-- Length of a string built from a character list. -/
theorem mk_length (l : List Char) : (⟨l⟩ : String).length = l.length := rfl

/-- Taking the character data of freshly built strings is the
identity. -/
theorem map_data_mk (L : List (List Char)) :
    (L.map fun l => (⟨l⟩ : String)).map String.data = L := by
  induction L with
  | nil => rfl
  | cons a t ih => rw [List.map_cons, List.map_cons, ih]

/-- A list without newline characters is a single line. -/
theorem splitNL_no_newline (l : List Char) (h : ∀ c ∈ l, c ≠ '\n') :
    splitNL l = [l] := by
  induction l with
  | nil => rfl
  | cons c cs ih =>
    have hc : c ≠ '\n' := h c (List.mem_cons_self c cs)
    have ih2 := ih fun x hx => h x (List.mem_cons_of_mem c hx)
    simp only [splitNL]
    rw [ih2]
    dsimp only
    rw [if_neg hc]

/-- A while-scan over a list that always fails drops nothing. -/
theorem dropWhile_all_false (p : Char → Bool) (l : List Char)
    (h : ∀ c ∈ l, p c = false) : l.dropWhile p = l := by
  cases l with
  | nil => rfl
  | cons c t => exact dropWhile_eq_self_of_head p c t (h c (List.mem_cons_self c t))

/-- Stripping a list with no whitespace at all changes nothing. -/
theorem pyStripChars_all_not_space (l : List Char)
    (h : ∀ c ∈ l, isPySpace c = false) : pyStripChars l = l := by
  unfold pyStripChars
  rw [dropWhile_all_false _ _ h,
    dropWhile_all_false _ _ (fun c hc => h c (List.mem_reverse.1 hc)),
    List.reverse_reverse]

/-- The 1991-character single line used as the over-limit example. -/
theorem splitNL_big_a :
    splitNL (List.replicate 1991 'a') = [List.replicate 1991 'a'] :=
  splitNL_no_newline _ fun c hc => by rw [List.eq_of_mem_replicate hc]; decide

/-- The over-limit example is not the empty list. -/
theorem big_a_ne_nil : List.replicate 1991 'a' ≠ [] := by
  intro h
  have h2 := congrArg List.length h
  rw [List.length_replicate] at h2
  exact absurd h2 (by decide)

/-- Stripping the over-limit example changes nothing. -/
theorem pyStripChars_big_a :
    pyStripChars (List.replicate 1991 'a') = List.replicate 1991 'a' :=
  pyStripChars_all_not_space _ fun c hc => by rw [List.eq_of_mem_replicate hc]; decide

/-- `split_message` on a single 1991-character line yields that line as
one over-limit chunk. -/
theorem split_message_big_a :
    split_message ⟨List.replicate 1991 'a'⟩ = [⟨List.replicate 1991 'a'⟩] := by
  unfold split_message
  rw [show (String.mk (List.replicate 1991 'a')).data = List.replicate 1991 'a' from rfl,
    splitNL_big_a, splitLinesFrom_cons, splitStep_nil_nil]
  unfold splitLinesFrom
  rw [List.foldl_nil]
  dsimp only
  rw [if_neg big_a_ne_nil, pyStripChars_big_a]
  rfl

/-- Appending one more part to a non-empty join appends a newline and
the part. -/
theorem glue_concat (g : List (List Char)) (hg : g ≠ []) (x : List Char) :
    List.intercalate ['\n'] (g ++ [x]) = List.intercalate ['\n'] g ++ '\n' :: x := by
  induction g with
  | nil => exact absurd rfl hg
  | cons a t ih =>
    cases t with
    | nil =>
      simp only [List.cons_append, List.nil_append, glue_cons2, glue_single]
    | cons b t2 =>
      have ih2 := ih (List.cons_ne_nil b t2)
      calc List.intercalate ['\n'] ((a :: b :: t2) ++ [x])
          = a ++ '\n' :: List.intercalate ['\n'] ((b :: t2) ++ [x]) :=
            glue_cons2 a b (t2 ++ [x])
        _ = a ++ '\n' :: (List.intercalate ['\n'] (b :: t2) ++ '\n' :: x) := by
            rw [ih2]
        _ = (a ++ '\n' :: List.intercalate ['\n'] (b :: t2)) ++ '\n' :: x := by
            simp [List.append_assoc]
        _ = List.intercalate ['\n'] (a :: b :: t2) ++ '\n' :: x := by
            rw [glue_cons2]

/-- Unfolding of the grouping loop body on an explicit state pair. -/
theorem groupStep_eq (gs : List (List (List Char))) (cur : List (List Char))
    (l : List Char) :
    groupStep (gs, cur) l =
      if MAX_DISCORD_LENGTH < (List.intercalate ['\n'] cur).length + l.length + 1 then
        (if List.intercalate ['\n'] cur = [] then gs else gs ++ [cur], [l])
      else (gs, if List.intercalate ['\n'] cur = [] then [l] else cur ++ [l]) := rfl

/-- Grouping one more line first steps the state. -/
theorem groupsFrom_cons (st : List (List (List Char)) × List (List Char))
    (l : List Char) (ls : List (List Char)) :
    groupsFrom st (l :: ls) = groupsFrom (groupStep st l) ls := by
  unfold groupsFrom
  rw [List.foldl_cons]

/-- The chunking loop is exactly the grouping loop followed by
strip-of-join: from any pair of corresponding states, the chunks are the
stripped newline-joins of the groups, in order. -/
theorem splitLinesFrom_eq_groupsFrom (ls : List (List Char)) :
    ∀ (gs : List (List (List Char))) (cur : List (List Char)),
    splitLinesFrom (gs.map fun g => pyStripChars (List.intercalate ['\n'] g),
        List.intercalate ['\n'] cur) ls
      = (groupsFrom (gs, cur) ls).map fun g => pyStripChars (List.intercalate ['\n'] g) := by
  induction ls with
  | nil =>
    intro gs cur
    unfold splitLinesFrom groupsFrom
    rw [List.foldl_nil, List.foldl_nil]
    dsimp only
    by_cases hg : List.intercalate ['\n'] cur = []
    · rw [if_pos hg, if_pos hg]
    · rw [if_neg hg, if_neg hg, List.map_append]
      rfl
  | cons l t ih =>
    intro gs cur
    rw [splitLinesFrom_cons, groupsFrom_cons, splitStep_eq, groupStep_eq]
    by_cases hcond : MAX_DISCORD_LENGTH < (List.intercalate ['\n'] cur).length + l.length + 1
    · rw [if_pos hcond, if_pos hcond]
      by_cases hg : List.intercalate ['\n'] cur = []
      · rw [if_pos hg, if_pos hg]
        have h2 := ih gs [l]
        rw [glue_single] at h2
        exact h2
      · rw [if_neg hg, if_neg hg]
        have h2 := ih (gs ++ [cur]) [l]
        rw [glue_single] at h2
        simp only [List.map_append, List.map_cons, List.map_nil] at h2
        exact h2
    · rw [if_neg hcond, if_neg hcond]
      by_cases hg : List.intercalate ['\n'] cur = []
      · rw [if_pos hg, if_pos hg]
        have h2 := ih gs [l]
        rw [glue_single] at h2
        exact h2
      · rw [if_neg hg, if_neg hg]
        have hcur : cur ≠ [] := fun h => hg (by rw [h]; exact glue_nil)
        have h2 := ih gs (cur ++ [l])
        rw [glue_concat cur hcur l] at h2
        exact h2

/-- The lines collected in the groups are a subsequence of the lines fed
to the loop (appended to what the state already holds): no line is
reordered or split, only empty lines merged into an empty buffer are
dropped. -/
theorem groupsFrom_flatten_sublist (ls : List (List Char)) :
    ∀ (gs : List (List (List Char))) (cur : List (List Char)),
    ((groupsFrom (gs, cur) ls).flatten).Sublist (gs.flatten ++ (cur ++ ls)) := by
  induction ls with
  | nil =>
    intro gs cur
    unfold groupsFrom
    rw [List.foldl_nil]
    dsimp only
    by_cases hg : List.intercalate ['\n'] cur = []
    · rw [if_pos hg]
      exact List.sublist_append_left _ _
    · rw [if_neg hg, List.flatten_append]
      simp [List.append_assoc]
  | cons l t ih =>
    intro gs cur
    rw [groupsFrom_cons, groupStep_eq]
    by_cases hcond : MAX_DISCORD_LENGTH < (List.intercalate ['\n'] cur).length + l.length + 1
    · rw [if_pos hcond]
      by_cases hg : List.intercalate ['\n'] cur = []
      · rw [if_pos hg]
        refine (ih gs [l]).trans ?_
        exact List.Sublist.append_left (List.sublist_append_right cur (l :: t)) _
      · rw [if_neg hg]
        have h2 := ih (gs ++ [cur]) [l]
        rw [List.flatten_append] at h2
        simpa [List.append_assoc] using h2
    · rw [if_neg hcond]
      by_cases hg : List.intercalate ['\n'] cur = []
      · rw [if_pos hg]
        refine (ih gs [l]).trans ?_
        exact List.Sublist.append_left (List.sublist_append_right cur (l :: t)) _
      · rw [if_neg hg]
        have h2 := ih gs (cur ++ [l])
        simpa [List.append_assoc] using h2

/-- Every group the loop emits is non-empty. -/
theorem groupsFrom_ne_nil (ls : List (List Char)) :
    ∀ (gs : List (List (List Char))) (cur : List (List Char)),
    (∀ g ∈ gs, g ≠ []) →
    ∀ g ∈ groupsFrom (gs, cur) ls, g ≠ [] := by
  induction ls with
  | nil =>
    intro gs cur hgs g hg
    unfold groupsFrom at hg
    rw [List.foldl_nil] at hg
    dsimp only at hg
    by_cases hc : List.intercalate ['\n'] cur = []
    · rw [if_pos hc] at hg
      exact hgs g hg
    · rw [if_neg hc] at hg
      rcases List.mem_append.1 hg with h | h
      · exact hgs g h
      · rw [List.mem_singleton] at h
        subst h
        intro hnil
        rw [hnil] at hc
        exact hc glue_nil
  | cons l t ih =>
    intro gs cur hgs g hg
    rw [groupsFrom_cons, groupStep_eq] at hg
    by_cases hcond : MAX_DISCORD_LENGTH < (List.intercalate ['\n'] cur).length + l.length + 1
    · rw [if_pos hcond] at hg
      by_cases hc : List.intercalate ['\n'] cur = []
      · rw [if_pos hc] at hg
        exact ih gs [l] hgs g hg
      · rw [if_neg hc] at hg
        refine ih (gs ++ [cur]) [l] ?_ g hg
        intro x hx
        rcases List.mem_append.1 hx with h | h
        · exact hgs x h
        · rw [List.mem_singleton] at h
          subst h
          intro hnil
          rw [hnil] at hc
          exact hc glue_nil
    · rw [if_neg hcond] at hg
      exact ih gs _ hgs g hg

/-- Any group that contains an over-limit line is that line alone: an
over-limit buffer can never be extended, and an over-limit line can
never join an existing buffer. -/
theorem groupsFrom_oversized_singleton (ls : List (List Char)) :
    ∀ (gs : List (List (List Char))) (cur : List (List Char)),
    (∀ g ∈ gs, ∀ x ∈ g, MAX_DISCORD_LENGTH < x.length → g = [x]) →
    (∀ x ∈ cur, MAX_DISCORD_LENGTH < x.length → cur = [x]) →
    ∀ g ∈ groupsFrom (gs, cur) ls, ∀ x ∈ g, MAX_DISCORD_LENGTH < x.length → g = [x] := by
  induction ls with
  | nil =>
    intro gs cur hgs hcur g hg
    unfold groupsFrom at hg
    rw [List.foldl_nil] at hg
    dsimp only at hg
    by_cases hc : List.intercalate ['\n'] cur = []
    · rw [if_pos hc] at hg
      exact hgs g hg
    · rw [if_neg hc] at hg
      rcases List.mem_append.1 hg with h | h
      · exact hgs g h
      · rw [List.mem_singleton] at h
        subst h
        exact hcur
  | cons l t ih =>
    intro gs cur hgs hcur g hg
    rw [groupsFrom_cons, groupStep_eq] at hg
    have hl : ∀ x ∈ [l], MAX_DISCORD_LENGTH < x.length → [l] = [x] := by
      intro x hx _
      rw [List.mem_singleton] at hx
      rw [hx]
    by_cases hcond : MAX_DISCORD_LENGTH < (List.intercalate ['\n'] cur).length + l.length + 1
    · rw [if_pos hcond] at hg
      by_cases hc : List.intercalate ['\n'] cur = []
      · rw [if_pos hc] at hg
        exact ih gs [l] hgs hl g hg
      · rw [if_neg hc] at hg
        refine ih (gs ++ [cur]) [l] ?_ hl g hg
        intro g2 hg2
        rcases List.mem_append.1 hg2 with h | h
        · exact hgs g2 h
        · rw [List.mem_singleton] at h
          subst h
          exact hcur
    · rw [if_neg hcond] at hg
      by_cases hc : List.intercalate ['\n'] cur = []
      · rw [if_pos hc] at hg
        exact ih gs [l] hgs hl g hg
      · rw [if_neg hc] at hg
        refine ih gs (cur ++ [l]) hgs ?_ g hg
        intro x hx hover
        exfalso
        rcases List.mem_append.1 hx with h | h
        · have hc2 := hcur x h hover
          apply hcond
          rw [hc2, glue_single]
          omega
        · rw [List.mem_singleton] at h
          subst h
          exact hcond (by omega)

/-- Groups already emitted stay in the final output. -/
theorem mem_groupsFrom_of_mem (ls : List (List Char)) :
    ∀ (gs : List (List (List Char))) (cur g : List (List Char)),
    g ∈ gs → g ∈ groupsFrom (gs, cur) ls := by
  induction ls with
  | nil =>
    intro gs cur g h
    unfold groupsFrom
    rw [List.foldl_nil]
    dsimp only
    by_cases hc : List.intercalate ['\n'] cur = []
    · rw [if_pos hc]
      exact h
    · rw [if_neg hc]
      exact List.mem_append_left _ h
  | cons l t ih =>
    intro gs cur g h
    rw [groupsFrom_cons, groupStep_eq]
    by_cases hcond : MAX_DISCORD_LENGTH < (List.intercalate ['\n'] cur).length + l.length + 1
    · rw [if_pos hcond]
      by_cases hc : List.intercalate ['\n'] cur = []
      · rw [if_pos hc]
        exact ih gs [l] g h
      · rw [if_neg hc]
        exact ih (gs ++ [cur]) [l] g (List.mem_append_left _ h)
    · rw [if_neg hcond]
      exact ih gs _ g h

/-- A buffer whose join is over the limit is always emitted as a group
of its own. -/
theorem oversized_gcur_mem (ls : List (List Char)) :
    ∀ (gs : List (List (List Char))) (cur : List (List Char)),
    MAX_DISCORD_LENGTH < (List.intercalate ['\n'] cur).length →
    cur ∈ groupsFrom (gs, cur) ls := by
  induction ls with
  | nil =>
    intro gs cur hcur
    have hc : List.intercalate ['\n'] cur ≠ [] := by
      intro h
      rw [h] at hcur
      simp [MAX_DISCORD_LENGTH] at hcur
    unfold groupsFrom
    rw [List.foldl_nil]
    dsimp only
    rw [if_neg hc]
    exact List.mem_append_right _ (List.mem_singleton_self _)
  | cons l t ih =>
    intro gs cur hcur
    have hc : List.intercalate ['\n'] cur ≠ [] := by
      intro h
      rw [h] at hcur
      simp [MAX_DISCORD_LENGTH] at hcur
    rw [groupsFrom_cons, groupStep_eq]
    have hcond : MAX_DISCORD_LENGTH < (List.intercalate ['\n'] cur).length + l.length + 1 := by
      omega
    rw [if_pos hcond, if_neg hc]
    exact mem_groupsFrom_of_mem t (gs ++ [cur]) [l] cur
      (List.mem_append_right _ (List.mem_singleton_self _))

/-- Any over-limit line among the input lines becomes a singleton group,
from any starting state. -/
theorem oversized_gline_mem (ls : List (List Char)) :
    ∀ (gs : List (List (List Char))) (cur : List (List Char)) (l : List Char),
    l ∈ ls → MAX_DISCORD_LENGTH < l.length →
    [l] ∈ groupsFrom (gs, cur) ls := by
  induction ls with
  | nil =>
    intro gs cur l h
    exact absurd h (List.not_mem_nil l)
  | cons x t ih =>
    intro gs cur l hmem hover
    rcases List.mem_cons.1 hmem with rfl | hmem2
    · rw [groupsFrom_cons, groupStep_eq]
      have hcond : MAX_DISCORD_LENGTH < (List.intercalate ['\n'] cur).length + l.length + 1 := by
        omega
      rw [if_pos hcond]
      by_cases hc : List.intercalate ['\n'] cur = []
      · rw [if_pos hc]
        exact oversized_gcur_mem t gs [l] (by rw [glue_single]; exact hover)
      · rw [if_neg hc]
        exact oversized_gcur_mem t (gs ++ [cur]) [l] (by rw [glue_single]; exact hover)
    · rw [groupsFrom_cons]
      rcases hst : groupStep (gs, cur) x with ⟨gs2, cur2⟩
      exact ih gs2 cur2 l hmem2 hover

/-! ## Claims -/

/-- C1 (counterexample): the claim that every chunk produced by
`split_message` has length at most `MAX_DISCORD_LENGTH` fails on a
single 1991-character line, which becomes one over-limit chunk. -/
theorem split_message_len_cex :
    ¬ (∀ c ∈ split_message ⟨List.replicate 1991 'a'⟩,
        c.length ≤ MAX_DISCORD_LENGTH) := by
  intro h
  have h2 := h ⟨List.replicate 1991 'a'⟩
    (by rw [split_message_big_a]; exact List.mem_singleton_self _)
  rw [mk_length, List.length_replicate] at h2
  exact absurd h2 (by decide)

/-- C1 (amended): whenever every line of the input fits the limit,
every chunk produced by `split_message` has length at most
`MAX_DISCORD_LENGTH`. -/
theorem split_message_chunk_len (s : String)
    (h : ∀ l ∈ splitNL s.data, l.length ≤ MAX_DISCORD_LENGTH) :
    ∀ c ∈ split_message s, c.length ≤ MAX_DISCORD_LENGTH := by
  intro c hc
  unfold split_message at hc
  obtain ⟨l, hl, rfl⟩ := List.mem_map.1 hc
  rw [mk_length]
  exact chunks_le_aux (splitNL s.data) [] [] (by simp) (Nat.zero_le _) h l hl

/-- C1 (witness): the amended bound evaluated on a short concrete
input. -/
theorem split_message_chunk_len_witness :
    (∀ l ∈ splitNL (String.data "ab\ncd"), l.length ≤ MAX_DISCORD_LENGTH) ∧
    (∀ c ∈ split_message "ab\ncd", c.length ≤ MAX_DISCORD_LENGTH) :=
  ⟨by decide, split_message_chunk_len "ab\ncd" (by decide)⟩

/-- C2 (counterexample): joining the chunks of `" "` with newlines does
not reproduce the original line: the single whitespace line is trimmed
away, so the line sequence differs. -/
theorem split_message_roundtrip_cex :
    ¬ (splitNL ((joinNL (split_message " ")).data) = splitNL (String.data " ")) := by
  decide

/-- C2 (amended): whenever every line of the input is non-empty and
carries no leading or trailing whitespace, joining the chunks of
`split_message` with newlines reproduces the input exactly, hence every
original line in original order. -/
theorem split_message_roundtrip (s : String)
    (h : ∀ l ∈ splitNL s.data, l ≠ [] ∧ pyStripChars l = l) :
    joinNL (split_message s) = s := by
  obtain ⟨l0, t, h0⟩ := List.exists_cons_of_ne_nil (splitNL_ne_nil s.data)
  have hl0 := h l0 (by rw [h0]; exact List.mem_cons_self _ _)
  have hrest : ∀ x ∈ t, x ≠ [] ∧ pyStripChars x = x := fun x hx =>
    h x (by rw [h0]; exact List.mem_cons_of_mem _ hx)
  obtain ⟨hj, _⟩ := join_splitLinesFrom t l0 hl0.1 hl0.2 hrest
  unfold joinNL split_message
  rw [map_data_mk, h0, splitLinesFrom_cons, splitStep_nil_nil, hj, ← h0, glue_splitNL]

/-- C2 (witness): the amended round trip evaluated on a concrete
two-line input. -/
theorem split_message_roundtrip_witness :
    (∀ l ∈ splitNL (String.data "a\nb"), l ≠ [] ∧ pyStripChars l = l) ∧
    joinNL (split_message "a\nb") = "a\nb" :=
  ⟨by decide, split_message_roundtrip "a\nb" (by decide)⟩

/-- C3 (counterexample): the dispatcher does not implement the claimed
suffix test for image URLs: on `http://x.png?a=1` (which merely contains
`.png`) the code takes the image-URL path while the claimed
classification takes the text path. -/
theorem classify_cex :
    classify ⟨[], "http://x.png?a=1"⟩ ≠ classifySpecClaimed ⟨[], "http://x.png?a=1"⟩ := by
  decide

/-- C3 (amended): the dispatcher classifies every message into exactly
one of three kinds in priority order — image attachment first, then
image URL where the lowercased text merely CONTAINS a known image
extension (not necessarily as a suffix), otherwise text. -/
theorem classify_eq_amended (m : MsgInfo) : classify m = classifySpecAmended m := by
  obtain ⟨atts, content⟩ := m
  cases atts with
  | nil =>
    simp only [classify, classifySpecAmended, firstIsImage, isImageUrlText,
      classifySpecAmended.classifyNoAttachment]
    rw [if_neg (by decide)]
  | cons a t =>
    simp only [classify, classifySpecAmended, firstIsImage, isImageUrlText,
      classifySpecAmended.classifyNoAttachment]

/-- C4: the chunk list of `split_message` is, in order, the stripped
newline-join of a list of line groups (`chunkGroups`): no line is ever
split mid-line, and since the concatenation of the groups is a
subsequence of the input's line list, chunk order is stable and equals
line order.  Every group is non-empty, any group containing a line
longer than `MAX_DISCORD_LENGTH` is exactly that single line, and every
over-limit line of the input does appear as such a singleton group —
hence, unmodified except for trimming, as a chunk of its own. -/
theorem oversized_line_own_chunk (s : String) :
    split_message s
      = (chunkGroups s).map (fun g => (⟨pyStripChars (List.intercalate ['\n'] g)⟩ : String)) ∧
    ((chunkGroups s).flatten).Sublist (splitNL s.data) ∧
    (∀ g ∈ chunkGroups s, g ≠ []) ∧
    (∀ g ∈ chunkGroups s, ∀ l ∈ g, MAX_DISCORD_LENGTH < l.length → g = [l]) ∧
    (∀ l ∈ splitNL s.data, MAX_DISCORD_LENGTH < l.length →
      [l] ∈ chunkGroups s ∧ (⟨pyStripChars l⟩ : String) ∈ split_message s) := by
  refine ⟨?_, ?_, ?_, ?_, ?_⟩
  · unfold split_message chunkGroups
    have h := splitLinesFrom_eq_groupsFrom (splitNL s.data) [] []
    rw [List.map_nil, glue_nil] at h
    rw [h, List.map_map]
    rfl
  · have h := groupsFrom_flatten_sublist (splitNL s.data) [] []
    simpa [chunkGroups] using h
  · intro g hg
    exact groupsFrom_ne_nil (splitNL s.data) [] []
      (fun g2 hg2 => absurd hg2 (List.not_mem_nil g2)) g hg
  · intro g hg l hl hover
    exact groupsFrom_oversized_singleton (splitNL s.data) [] []
      (fun g2 hg2 => absurd hg2 (List.not_mem_nil g2))
      (fun x hx => absurd hx (List.not_mem_nil x)) g hg l hl hover
  · intro l hl hover
    refine ⟨oversized_gline_mem (splitNL s.data) [] [] l hl hover, ?_⟩
    unfold split_message
    exact List.mem_map_of_mem _ (oversized_line_mem (splitNL s.data) [] [] l hl hover)

/-- C4 (witness): the 1991-character line forms a singleton group and
appears, trimmed, as its own chunk. -/
theorem oversized_line_own_chunk_witness :
    [List.replicate 1991 'a'] ∈ chunkGroups ⟨List.replicate 1991 'a'⟩ ∧
    (⟨pyStripChars (List.replicate 1991 'a')⟩ : String)
      ∈ split_message ⟨List.replicate 1991 'a'⟩ :=
  (oversized_line_own_chunk ⟨List.replicate 1991 'a'⟩).2.2.2.2 (List.replicate 1991 'a')
    (by show List.replicate 1991 'a' ∈ splitNL (List.replicate 1991 'a')
        rw [splitNL_big_a]
        exact List.mem_singleton_self _)
    (by rw [List.length_replicate]; decide)

/-- C5: on any non-200 response, `process_text` clears reactions, adds
the failure marker and replies with the error detail — the `detail`
field of the JSON body (default `Unknown error`), or the raw body text
when the body is not a JSON object — and performs nothing else. -/
theorem non200_error_reply (resp : ApiResponse) (h : resp.status ≠ 200) :
    process_text_effects resp =
      [Effect.addReaction "⏳", Effect.httpPost "/format/text", Effect.clearReactions,
        Effect.addReaction "❌", Effect.reply ("Error: " ++ errorDetailOf resp)] ∧
    (resp.json = none → errorDetailOf resp = resp.text) ∧
    (∀ obj, resp.json = some obj →
      errorDetailOf resp = jsonGet obj "detail" "Unknown error") := by
  refine ⟨?_, ?_, ?_⟩
  · unfold process_text_effects responseEffects
    rw [if_pos h]
  · intro hj
    unfold errorDetailOf
    rw [hj]
  · intro obj hj
    unfold errorDetailOf
    rw [hj]

/-- C5 (witness): a 500 response with body `detail: bad input` yields
the failure marker and the reply `Error: bad input`. -/
theorem non200_error_reply_witness :
    ((500 : Nat) ≠ 200) ∧
    process_text_effects ⟨500, "raw body", some [("detail", "bad input")]⟩ =
      [Effect.addReaction "⏳", Effect.httpPost "/format/text", Effect.clearReactions,
        Effect.addReaction "❌", Effect.reply "Error: bad input"] :=
  ⟨by decide, by
    rw [(non200_error_reply ⟨500, "raw body", some [("detail", "bad input")]⟩ (by decide)).1]
    decide⟩

/-- C6: a message that does not mention the bot, or whose author is the
bot itself, produces zero side effects: no marker, no reply, no
outbound HTTP call. -/
theorem irrelevant_silent (botId : Nat) (m : InMsg) (env : Env)
    (h : m.mentionsBot = false ∨ m.authorIsBot = true) :
    on_message_effects botId m env = [] := by
  unfold on_message_effects
  rcases h with h | h
  · simp [h]
  · simp [h]

/-- C6 (witness): a concrete unmentioned message produces no effects. -/
theorem irrelevant_silent_witness :
    (((false : Bool) = false) ∨ ((false : Bool) = true)) ∧
    on_message_effects 5 ⟨false, false, "hello", []⟩ ⟨200, ⟨200, "", none⟩⟩ = [] :=
  ⟨Or.inl rfl,
    irrelevant_silent 5 ⟨false, false, "hello", []⟩ ⟨200, ⟨200, "", none⟩⟩ (Or.inl rfl)⟩

/-- C7: on a 200 response whose JSON body lacks `formatted_dates`, both
the text pipeline and the image pipeline substitute the literal fallback
`Error: No dates found`, which is then sent as the (single) formatted
reply. -/
theorem missing_dates_fallback (resp : ApiResponse) (obj : List (String × String))
    (h200 : resp.status = 200) (hj : resp.json = some obj)
    (hmiss : obj.find? (fun p => p.1 = "formatted_dates") = none) :
    process_text_effects resp = [Effect.addReaction "⏳", Effect.httpPost "/format/text",
      Effect.reply ("```\nError: No dates found\n```\n\nPlease double-check all info as Better Lover can make mistakes.")] ∧
    process_image_effects resp = [Effect.addReaction "⏳", Effect.httpPost "/format/image",
      Effect.reply ("```\nError: No dates found\n```\n\nPlease double-check all info as Better Lover can make mistakes.")] := by
  have hfd : jsonGet obj "formatted_dates" "Error: No dates found"
      = "Error: No dates found" := by
    unfold jsonGet
    rw [hmiss]
  have hre : responseEffects resp = [Effect.reply
      ("```\nError: No dates found\n```\n\nPlease double-check all info as Better Lover can make mistakes.")] := by
    unfold responseEffects
    rw [if_neg (by simp [h200]), hj]
    dsimp only
    rw [hfd]
    rfl
  constructor
  · unfold process_text_effects
    rw [hre]
  · unfold process_image_effects
    rw [hre]

/-- C7 (witness): the fallback evaluated on a concrete 200 response with
an empty JSON object. -/
theorem missing_dates_fallback_witness :
    ((200 : Nat) = 200) ∧ (some ([] : List (String × String)) = some []) ∧
    ([] : List (String × String)).find? (fun p => p.1 = "formatted_dates") = none ∧
    process_text_effects ⟨200, "", some []⟩ =
      [Effect.addReaction "⏳", Effect.httpPost "/format/text",
        Effect.reply ("```\nError: No dates found\n```\n\nPlease double-check all info as Better Lover can make mistakes.")] :=
  ⟨rfl, rfl, rfl, (missing_dates_fallback ⟨200, "", some []⟩ [] rfl rfl rfl).1⟩

/-- C8: a relevant message (bot mentioned, not self-authored) that has
no text left after mention stripping and no attachment gets exactly one
informational reply asking for input — no reaction marker and no HTTP
call. -/
theorem empty_input_prompt (botId : Nat) (m : InMsg) (env : Env)
    (h1 : m.mentionsBot = true) (h2 : m.authorIsBot = false)
    (h3 : strippedContent botId m.content = "") (h4 : m.attachments = []) :
    on_message_effects botId m env =
      [Effect.reply "Please provide some tour dates, an image, or an image URL."] := by
  unfold on_message_effects
  simp [h1, h2, h3, h4]

/-- C8 (witness): a concrete message consisting only of the mention
token gets the informational reply. -/
theorem empty_input_prompt_witness :
    strippedContent 7 "<@7>" = "" ∧
    on_message_effects 7 ⟨true, false, "<@7>", []⟩ ⟨200, ⟨200, "", none⟩⟩ =
      [Effect.reply "Please provide some tour dates, an image, or an image URL."] :=
  ⟨by decide,
    empty_input_prompt 7 ⟨true, false, "<@7>", []⟩ ⟨200, ⟨200, "", none⟩⟩
      rfl rfl (by decide) rfl⟩

/-- C9: `split_message` applied to the empty string produces zero
chunks. -/
theorem split_message_empty : split_message "" = [] := rfl

/-- C10: on a 200 response whose `formatted_dates` is the empty string,
`split_message` returns the empty list, so the reply step's `chunks[0]`
raises `IndexError`; the dispatch therefore ends with the failure marker
and `Error: list index out of range` instead of a formatted reply. -/
theorem empty_dates_failure (resp : ApiResponse) (obj : List (String × String))
    (h200 : resp.status = 200) (hj : resp.json = some obj)
    (hfd : jsonGet obj "formatted_dates" "Error: No dates found" = "") :
    split_message "" = [] ∧
    process_text_effects resp = [Effect.addReaction "⏳", Effect.httpPost "/format/text",
      Effect.clearReactions, Effect.addReaction "❌",
      Effect.reply ("Error: " ++ INDEX_ERROR)] := by
  refine ⟨rfl, ?_⟩
  unfold process_text_effects responseEffects
  rw [if_neg (by simp [h200]), hj]
  dsimp only
  rw [hfd]
  rfl

/-- C10 (witness): the failure path evaluated on a concrete 200 response
carrying an empty `formatted_dates`. -/
theorem empty_dates_failure_witness :
    jsonGet [("formatted_dates", "")] "formatted_dates" "Error: No dates found" = "" ∧
    process_text_effects ⟨200, "ok", some [("formatted_dates", "")]⟩ =
      [Effect.addReaction "⏳", Effect.httpPost "/format/text",
        Effect.clearReactions, Effect.addReaction "❌",
        Effect.reply ("Error: " ++ INDEX_ERROR)] :=
  ⟨by decide,
    (empty_dates_failure ⟨200, "ok", some [("formatted_dates", "")]⟩
      [("formatted_dates", "")] rfl rfl (by decide)).2⟩
